import Mathlib

/-!
Shallow embedding of `jina_commons/indexers/dump.py`: a streaming, sharded
binary dump/import mechanism for (id, vector, metadata) records.

Modelling conventions:
* a Python `bytes` value is a `List Nat` (one entry per byte);
* a Python `str` is a `List Char`;
* a `numpy` `float64` ndarray is represented by its underlying byte buffer
  (8 bytes per element, platform byte order, here little-endian as on the
  writing platform); `tobytes` is the identity on that buffer and
  `np.frombuffer(_, dtype=float64)` returns the array with that buffer,
  so bit-level equality of buffers is exactly elementwise bit-level
  (hence numeric) equality of the arrays;
* the filesystem effects of `_handle_dump` are made explicit: the outcome
  records whether the root directory was created, the per-shard artifact
  files written (a partially written shard included), the unconsumed part
  of the producer, and the error raised, if any;
* Python exceptions are constructors of explicit error types
  (`DumpError`, `ReadError`); integer division by zero, which `//` raises
  in Python but Lean's `Int.fdiv` silently maps to 0, is modelled by an
  explicit test.
-/

namespace Dump

/-- A byte string (Python `bytes`): one `Nat` per byte. -/
abbrev Bytes := List Nat

/-- The newline character appended after each id (`ids_fh.write(id_ + '\n')`). -/
def nlChar : Char := Char.ofNat 10

/-- The carriage return, which Python's text-mode universal-newlines
reading also treats as a line terminator. -/
def crChar : Char := Char.ofNat 13

/-- The vector field of a record, as the producer yields it
(`Union[np.ndarray, bytes]`, or `None`). -/
inductive Vec where
  /-- `vec is None`. -/
  | absent : Vec
  /-- a `float64` ndarray, represented by its byte buffer (8 bytes per
  element); since its dtype is already `DUMP_DTYPE`, the
  `astype` branch of `_write_shard_files` is the identity on it. -/
  | arr (buf : Bytes) : Vec
  /-- a Python `bytes` object: it fails the `isinstance(vec, np.ndarray)`
  test in `_write_shard_files` and is written verbatim. -/
  | raw (bs : Bytes) : Vec
deriving DecidableEq, Repr

/-- One record pulled from the producer: `(id, vector, metadata)`. -/
structure Record where
  id : List Char
  vec : Vec
  meta : Option Bytes
deriving DecidableEq, Repr

/-- The bytes of the vector field after the normalisation in
`_write_shard_files`: `None` becomes `EMPTY_BYTES`, an ndarray becomes its
`tobytes()` buffer, a `bytes` object passes through untouched. -/
def vecBytes : Vec → Bytes
  | Vec.absent => []
  | Vec.arr buf => buf
  | Vec.raw bs => bs

/-- The bytes of the metadata field: `None` becomes `EMPTY_BYTES`. -/
def metaBytes : Option Bytes → Bytes
  | none => []
  | some m => m

/-- `len(payload).to_bytes(BYTE_PADDING, sys.byteorder)`: the 4-byte
little-endian length prefix (Python raises `OverflowError` for
`n >= 2^32`; theorems that decode it carry that bound). -/
def lenEnc (n : Nat) : Bytes :=
  [n % 256, n / 256 % 256, n / 65536 % 256, n / 16777216 % 256]

/-- `int.from_bytes(bs, byteorder=sys.byteorder)` for little-endian
`sys.byteorder`; on `b''` it returns 0. -/
def fromBytesLE (bs : Bytes) : Nat :=
  bs.foldr (fun b acc => acc * 256 + b) 0

/-- The three artifact files of one shard directory, by content. -/
structure ShardFiles where
  ids : List Char
  vectors : Bytes
  metas : Bytes
deriving DecidableEq, Repr

/-- The three artifacts as freshly opened for writing by
`_write_shard_data`. -/
def emptyShard : ShardFiles := ⟨[], [], []⟩

/-- One iteration of `_write_shard_files`: append the length-prefixed
vector payload, the length-prefixed metadata payload and the id line to
the three artifacts. -/
def writeRecord (sf : ShardFiles) (r : Record) : ShardFiles :=
  { ids := sf.ids ++ r.id ++ [nlChar]
  , vectors := sf.vectors ++ lenEnc (vecBytes r.vec).length ++ vecBytes r.vec
  , metas := sf.metas ++ lenEnc (metaBytes r.meta).length ++ metaBytes r.meta }

/-- Errors `_handle_dump` can raise. -/
inductive DumpError where
  /-- the `Exception('path for dump ... contains data ...')` raised when
  the target directory is non-empty. -/
  | dumpTargetNotEmpty : DumpError
  /-- `ZeroDivisionError` from `size // shards` with `shards == 0`. -/
  | zeroDivisionError : DumpError
  /-- `StopIteration` escaping from `next(data)` when the producer is
  exhausted before the current shard's quota is met. -/
  | producerExhausted : DumpError
deriving DecidableEq, Repr

/-- The `while shard_docs_written < size_this_shard` loop of
`_write_shard_data`: pull and write records until the quota is met.
Returns the artifact contents written so far (partial on failure), the
unconsumed producer suffix, and whether the quota was met (`false` models
`next(data)` raising `StopIteration`). -/
def _write_shard_data : Nat → List Record → ShardFiles → ShardFiles × List Record × Bool
  | 0, data, sf => (sf, data, true)
  | _ + 1, [], sf => (sf, [], false)
  | n + 1, r :: rest, sf => _write_shard_data n rest (writeRecord sf r)

/-- The `for shard_id in shard_range` loop of `_handle_dump`: write each
shard's quota in turn.  On `StopIteration` the partially written shard's
files remain on disk and later shards are not attempted. -/
def writeShards : List Int → List Record → List ShardFiles × List Record × Bool
  | [], data => ([], data, true)
  | q :: qs, data =>
    match _write_shard_data q.toNat data emptyShard with
    | (sf, rest, true) =>
      match writeShards qs rest with
      | (sfs, rem, ok) => (sf :: sfs, rem, ok)
    | (sf, rest, false) => ([sf], rest, false)

/-- The quota `size_this_shard` that `_handle_dump` computes for shard
`i`: `size // shards` plus, for the last shard (`shard_range[-1]`, i.e.
`shards - 1`), the remainder `size % shards`.  Python `//` and `%` on
`int` are floor division and floor modulus, i.e. `Int.fdiv` / `Int.fmod`. -/
def shardQuota (size shards : Int) (i : Nat) : Int :=
  if (i : Int) = shards - 1 then Int.fdiv size shards + Int.fmod size shards
  else Int.fdiv size shards

/-- The quota of every shard in `list(range(shards))` order
(empty when `shards <= 0`, as `range` is). -/
def quotas (size shards : Int) : List Int :=
  (List.range shards.toNat).map (shardQuota size shards)

/-- The outcome of `_handle_dump`, with its filesystem effects explicit. -/
structure DumpOutcome where
  /-- whether `os.makedirs(path)` ran (the root did not exist). -/
  rootCreated : Bool
  /-- the shard artifact files written, in shard order; on
  `producerExhausted` the last entry is the partially written shard. -/
  written : List ShardFiles
  /-- the suffix of the producer that was never pulled. -/
  remaining : List Record
  /-- the exception raised, if any. -/
  error : Option DumpError
deriving DecidableEq, Repr

/-- `_handle_dump(data, path, shards, size)`.  The root directory is
described by whether it exists (`rootExists`) and its listing
(`listing`); if absent it is created empty.  A `while` loop with an `int`
bound runs `max(0, bound)` = `Int.toNat bound` times, hence `Int.toNat`
on each quota. -/
def _handle_dump (rootExists : Bool) (listing : List String)
    (data : List Record) (shards size : Int) : DumpOutcome :=
  let created := !rootExists
  let listing' := if rootExists then listing else []
  if listing'.isEmpty then
    if shards = 0 then
      { rootCreated := created, written := [], remaining := data
      , error := some DumpError.zeroDivisionError }
    else
      match writeShards (quotas size shards) data with
      | (sfs, rem, ok) =>
        { rootCreated := created, written := sfs, remaining := rem
        , error := if ok then none else some DumpError.producerExhausted }
  else
    { rootCreated := created, written := [], remaining := data
    , error := some DumpError.dumpTargetNotEmpty }

/-- `export_dump_streaming(path, shards, size, data)`: logs, then
delegates to `_handle_dump`. -/
def export_dump_streaming (rootExists : Bool) (listing : List String)
    (shards size : Int) (data : List Record) : DumpOutcome :=
  _handle_dump rootExists listing data shards size

/-- Errors the readers can raise. -/
inductive ReadError where
  /-- `FileNotFoundError` from `open()` on a missing artifact (the spec's
  `ShardNotFound`). -/
  | shardNotFound : ReadError
  /-- `ValueError` from `np.frombuffer` when the payload's byte length is
  not a multiple of the 8-byte `float64` element size. -/
  | valueError : ReadError
deriving DecidableEq, Repr

/-- Python whitespace, the set `str.strip()` with no argument removes
(CPython's `Py_UNICODE_ISSPACE`): code points 9-13 (tab, newline,
vertical tab, form feed, carriage return), 28-32 (the file/group/record/
unit separators and space), 133 (next line), 160 (no-break space),
5760 (Ogham space mark), 8192-8202 (en quad through hair space),
8232 and 8233 (line and paragraph separator), 8239 (narrow no-break
space), 8287 (medium mathematical space) and 12288 (ideographic
space). -/
def isPySpace (c : Char) : Bool :=
  let n := c.toNat
  (9 ≤ n && n ≤ 13) || (28 ≤ n && n ≤ 32) || n = 133 || n = 160
    || n = 5760 || (8192 ≤ n && n ≤ 8202) || n = 8232 || n = 8233
    || n = 8239 || n = 8287 || n = 12288

/-- `l.strip()`: drop whitespace from both ends. -/
def pyStrip (s : List Char) : List Char :=
  ((s.dropWhile isPySpace).reverse.dropWhile isPySpace).reverse

/-- Universal-newlines translation performed by Python's default
text-mode read (`newline=None`): `\r\n` and lone `\r` both become `\n`
before line splitting. -/
def univNewlines : List Char → List Char
  | [] => []
  | c :: [] => if c = crChar then [nlChar] else [c]
  | c :: d :: rest =>
    if c = crChar then
      if d = nlChar then nlChar :: univNewlines rest
      else nlChar :: univNewlines (d :: rest)
    else c :: univNewlines (d :: rest)

/-- Split a character list at every occurrence of `sep` (a list of `n`
separators yields `n + 1` parts). -/
def splitOnChar (sep : Char) : List Char → List (List Char)
  | [] => [[]]
  | c :: rest =>
    match splitOnChar sep rest with
    | [] => [[]]
    | p :: ps => if c = sep then [] :: p :: ps else (c :: p) :: ps

/-- `_ids_gen` on the content of an `ids` artifact: Python text-mode
reading first applies universal-newlines translation, file iteration
then yields each line (the trailing part after the last newline only
when it is non-empty), and each line is `strip()`ped. -/
def _ids_gen (content : List Char) : List (List Char) :=
  let parts := splitOnChar nlChar (univNewlines content)
  let lines := if parts.getLast? = some [] then parts.dropLast else parts
  lines.map pyStrip

/-- `_vecs_gen` on the content of a `vectors` artifact.  Each iteration
reads up to 4 bytes (`read` returns the at most 4 next bytes),
interprets them as a little-endian length (`b''` reads as 0), stops when
that length is 0, otherwise reads up to that many payload bytes: an empty
payload yields `None`, a non-empty one goes through
`np.frombuffer(_, dtype=float64)`, which raises `ValueError` unless the
byte count is a multiple of 8 and otherwise yields the array with that
buffer. -/
def _vecs_gen : Bytes → Except ReadError (List (Option Bytes))
  | [] => Except.ok []
  | b :: bs =>
    let n := fromBytesLE ((b :: bs).take 4)
    if n = 0 then Except.ok []
    else
      let payload := ((b :: bs).drop 4).take n
      let rest := ((b :: bs).drop 4).drop n
      if payload = [] then
        match _vecs_gen rest with
        | Except.error e => Except.error e
        | Except.ok tl => Except.ok (none :: tl)
      else if payload.length % 8 = 0 then
        match _vecs_gen rest with
        | Except.error e => Except.error e
        | Except.ok tl => Except.ok (some payload :: tl)
      else Except.error ReadError.valueError
termination_by bs => bs.length
decreasing_by
  all_goals simp only [List.length_drop, List.length_cons]; omega

/-- `_metas_gen` on the content of a `metas` artifact: same framing as
`_vecs_gen` but without the numeric reinterpretation — a non-empty
payload is yielded verbatim, an empty one as `None`; no error is
possible. -/
def _metas_gen : Bytes → List (Option Bytes)
  | [] => []
  | b :: bs =>
    let n := fromBytesLE ((b :: bs).take 4)
    if n = 0 then []
    else
      let payload := ((b :: bs).drop 4).take n
      let rest := ((b :: bs).drop 4).drop n
      if payload = [] then none :: _metas_gen rest
      else some payload :: _metas_gen rest
termination_by bs => bs.length
decreasing_by
  all_goals simp only [List.length_drop, List.length_cons]; omega

/-- A shard directory as the readers see it: each artifact is present
with its content, or missing (`none`); a missing shard directory makes
all three missing. -/
structure ShardFS where
  idsFile : Option (List Char)
  vectorsFile : Option Bytes
  metasFile : Option Bytes
deriving DecidableEq, Repr

/-- The shard directory written by the dumper for one shard. -/
def fsOf (sf : ShardFiles) : ShardFS :=
  ⟨some sf.ids, some sf.vectors, some sf.metas⟩

/-- Open and fully read the `ids` artifact (`open` raises
`FileNotFoundError` when it is missing). -/
def openIds (s : ShardFS) : Except ReadError (List (List Char)) :=
  match s.idsFile with
  | none => Except.error ReadError.shardNotFound
  | some c => Except.ok (_ids_gen c)

/-- Open and fully read the `vectors` artifact. -/
def openVecs (s : ShardFS) : Except ReadError (List (Option Bytes)) :=
  match s.vectorsFile with
  | none => Except.error ReadError.shardNotFound
  | some c => _vecs_gen c

/-- Open and fully read the `metas` artifact. -/
def openMetas (s : ShardFS) : Except ReadError (List (Option Bytes)) :=
  match s.metasFile with
  | none => Except.error ReadError.shardNotFound
  | some c => Except.ok (_metas_gen c)

/-- `import_vectors(path, pea_id)`: the ids and vectors sequences of one
shard. -/
def import_vectors (s : ShardFS) :
    Except ReadError (List (List Char)) × Except ReadError (List (Option Bytes)) :=
  (openIds s, openVecs s)

/-- `import_metas(path, pea_id)`: the ids and metas sequences of one
shard. -/
def import_metas (s : ShardFS) :
    Except ReadError (List (List Char)) × Except ReadError (List (Option Bytes)) :=
  (openIds s, openMetas s)

/-- `import_metas_and_vectors(path, pea_id)`: the ids, metas and vectors
sequences of one shard. -/
def import_metas_and_vectors (s : ShardFS) :
    Except ReadError (List (List Char)) × Except ReadError (List (Option Bytes))
      × Except ReadError (List (Option Bytes)) :=
  (openIds s, openMetas s, openVecs s)

/-- The `ids` artifact content produced for a record list. -/
def idsContent (recs : List Record) : List Char :=
  (recs.map (fun r => r.id ++ [nlChar])).flatten

/-- The `vectors` artifact content produced for a record list. -/
def vecsContent (recs : List Record) : Bytes :=
  (recs.map (fun r => lenEnc (vecBytes r.vec).length ++ vecBytes r.vec)).flatten

/-- The `metas` artifact content produced for a record list. -/
def metasContent (recs : List Record) : Bytes :=
  (recs.map (fun r => lenEnc (metaBytes r.meta).length ++ metaBytes r.meta)).flatten

/-- The strict sequential partition of the producer sequence described by
the spec: shard `i` receives the `i`-th quota's worth of consecutive
records.  (Spec-side segmentation the writer is compared against.) -/
def seqPartition : List Nat → List Record → List (List Record)
  | [], _ => []
  | n :: ns, data => data.take n :: seqPartition ns (data.drop n)

/-- Discriminator: is the vector field an ndarray? -/
def Vec.isArr : Vec → Bool
  | Vec.arr _ => true
  | _ => false

/-- The hypotheses under which a record survives the round trip: the
vector is a present, non-empty `float64` ndarray whose buffer the 4-byte
length prefix can carry; the metadata is present and non-empty (a zero
length payload is read back as termination, not as an absent value); and
the id is not changed by `strip()` and contains neither a newline nor a
carriage return (both are line terminators under universal newlines). -/
def GoodRecord (r : Record) : Prop :=
  r.vec.isArr = true ∧ vecBytes r.vec ≠ [] ∧ (vecBytes r.vec).length % 8 = 0
    ∧ (vecBytes r.vec).length < 2 ^ 32
    ∧ r.meta ≠ none ∧ metaBytes r.meta ≠ [] ∧ (metaBytes r.meta).length < 2 ^ 32
    ∧ pyStrip r.id = r.id ∧ nlChar ∉ r.id ∧ crChar ∉ r.id

instance (r : Record) : Decidable (GoodRecord r) := by
  unfold GoodRecord; infer_instance

/-- The artifact contents `_write_shard_data` produces for one shard when
its quota is met by the record list `recs`. -/
def shardFilesOf (recs : List Record) : ShardFiles :=
  List.foldl writeRecord emptyShard recs

/-! Helper lemmas. -/

/-- Decoding the 4-byte little-endian length prefix recovers the length
(for lengths `to_bytes` accepts at all). -/
theorem fromBytesLE_lenEnc (n : Nat) (h : n < 2 ^ 32) :
    fromBytesLE (lenEnc n) = n := by
  simp only [fromBytesLE, lenEnc, List.foldr]
  omega

theorem lenEnc_length (n : Nat) : (lenEnc n).length = 4 := rfl

theorem lenEnc_ne_nil (n : Nat) : lenEnc n ≠ [] := by
  simp [lenEnc]

/-- Unfolding lemma for `_vecs_gen` on a non-empty artifact. -/
theorem vecs_gen_cons (b : Nat) (bs : Bytes) :
    _vecs_gen (b :: bs) =
      (let n := fromBytesLE ((b :: bs).take 4)
      if n = 0 then Except.ok []
      else
        let payload := ((b :: bs).drop 4).take n
        let rest := ((b :: bs).drop 4).drop n
        if payload = [] then
          match _vecs_gen rest with
          | Except.error e => Except.error e
          | Except.ok tl => Except.ok (none :: tl)
        else if payload.length % 8 = 0 then
          match _vecs_gen rest with
          | Except.error e => Except.error e
          | Except.ok tl => Except.ok (some payload :: tl)
        else Except.error ReadError.valueError) := by
  rw [_vecs_gen]

/-- Unfolding lemma for `_metas_gen` on a non-empty artifact. -/
theorem metas_gen_cons (b : Nat) (bs : Bytes) :
    _metas_gen (b :: bs) =
      (let n := fromBytesLE ((b :: bs).take 4)
      if n = 0 then []
      else
        let payload := ((b :: bs).drop 4).take n
        let rest := ((b :: bs).drop 4).drop n
        if payload = [] then none :: _metas_gen rest
        else some payload :: _metas_gen rest) := by
  rw [_metas_gen]

/-- Reading one well-formed non-empty `float64` record from the front of
a `vectors` artifact. -/
theorem vecs_gen_step (p rest : Bytes) (tl : List (Option Bytes))
    (h0 : p ≠ []) (h32 : p.length < 2 ^ 32) (h8 : p.length % 8 = 0)
    (hrest : _vecs_gen rest = Except.ok tl) :
    _vecs_gen (lenEnc p.length ++ (p ++ rest)) = Except.ok (some p :: tl) := by
  have hlen : (lenEnc p.length).length = 4 := rfl
  have htake : ((lenEnc p.length ++ (p ++ rest)).take 4) = lenEnc p.length :=
    List.take_left' hlen
  have hdrop : ((lenEnc p.length ++ (p ++ rest)).drop 4) = p ++ rest :=
    List.drop_left' hlen
  have hcons : ∃ b bs, lenEnc p.length ++ (p ++ rest) = b :: bs := by
    cases h : lenEnc p.length ++ (p ++ rest) with
    | nil => simp [lenEnc] at h
    | cons b bs => exact ⟨b, bs, rfl⟩
  obtain ⟨b, bs, hb⟩ := hcons
  rw [hb] at htake hdrop ⊢
  rw [vecs_gen_cons]
  simp only [htake, hdrop, fromBytesLE_lenEnc p.length h32]
  have hne : p.length ≠ 0 := by simpa using h0
  rw [if_neg hne]
  have htakep : (p ++ rest).take p.length = p := List.take_left' rfl
  have hdropp : (p ++ rest).drop p.length = rest := List.drop_left' rfl
  simp only [htakep, hdropp, if_neg h0, h8, if_pos rfl, hrest]
  simp

/-- Reading one non-empty record from the front of a `metas` artifact. -/
theorem metas_gen_step (p rest : Bytes)
    (h0 : p ≠ []) (h32 : p.length < 2 ^ 32) :
    _metas_gen (lenEnc p.length ++ (p ++ rest)) = some p :: _metas_gen rest := by
  have hlen : (lenEnc p.length).length = 4 := rfl
  have htake : ((lenEnc p.length ++ (p ++ rest)).take 4) = lenEnc p.length :=
    List.take_left' hlen
  have hdrop : ((lenEnc p.length ++ (p ++ rest)).drop 4) = p ++ rest :=
    List.drop_left' hlen
  have hcons : ∃ b bs, lenEnc p.length ++ (p ++ rest) = b :: bs := by
    cases h : lenEnc p.length ++ (p ++ rest) with
    | nil => simp [lenEnc] at h
    | cons b bs => exact ⟨b, bs, rfl⟩
  obtain ⟨b, bs, hb⟩ := hcons
  rw [hb] at htake hdrop ⊢
  rw [metas_gen_cons]
  simp only [htake, hdrop, fromBytesLE_lenEnc p.length h32]
  have hne : p.length ≠ 0 := by simpa using h0
  rw [if_neg hne]
  have htakep : (p ++ rest).take p.length = p := List.take_left' rfl
  have hdropp : (p ++ rest).drop p.length = rest := List.drop_left' rfl
  simp only [htakep, hdropp, if_neg h0]

/-- A present metadata field is `some` of its byte payload. -/
theorem meta_eq_some (m : Option Bytes) (h : m ≠ none) :
    m = some (metaBytes m) := by
  cases m with
  | none => exact absurd rfl h
  | some v => rfl

/-- Reading back the `vectors` artifact of a list of good records yields
each record's array buffer, in order. -/
theorem vecs_gen_content (recs : List Record)
    (h : ∀ r ∈ recs, GoodRecord r) :
    _vecs_gen (vecsContent recs)
      = Except.ok (recs.map (fun r => some (vecBytes r.vec))) := by
  induction recs with
  | nil => simp [vecsContent, _vecs_gen]
  | cons r recs ih =>
    have hr := h r (List.mem_cons_self r recs)
    obtain ⟨-, hne, h8, h32, -⟩ := hr
    have ihr := ih (fun x hx => h x (List.mem_cons_of_mem r hx))
    have hcontent : vecsContent (r :: recs)
        = lenEnc (vecBytes r.vec).length ++ (vecBytes r.vec ++ vecsContent recs) := by
      simp [vecsContent]
    rw [hcontent, vecs_gen_step _ _ _ hne h32 h8 ihr]
    simp

/-- Reading back the `metas` artifact of a list of good records yields
each record's metadata, in order. -/
theorem metas_gen_content (recs : List Record)
    (h : ∀ r ∈ recs, GoodRecord r) :
    _metas_gen (metasContent recs) = recs.map Record.meta := by
  induction recs with
  | nil => simp [metasContent, _metas_gen]
  | cons r recs ih =>
    have hr := h r (List.mem_cons_self r recs)
    obtain ⟨-, -, -, -, hsome, hne, h32, -⟩ := hr
    have ihr := ih (fun x hx => h x (List.mem_cons_of_mem r hx))
    have hcontent : metasContent (r :: recs)
        = lenEnc (metaBytes r.meta).length ++ (metaBytes r.meta ++ metasContent recs) := by
      simp [metasContent]
    rw [hcontent, metas_gen_step _ _ hne h32, ihr]
    simp [← meta_eq_some r.meta hsome]

theorem splitOnChar_ne_nil (sep : Char) (l : List Char) :
    splitOnChar sep l ≠ [] := by
  cases l with
  | nil => simp [splitOnChar]
  | cons c rest =>
    rw [splitOnChar]
    cases h : splitOnChar sep rest with
    | nil => simp
    | cons p ps =>
      by_cases hc : c = sep <;> simp [hc]

/-- Splitting at a separator that terminates a separator-free chunk. -/
theorem splitOnChar_append (sep : Char) (a rest : List Char) (h : sep ∉ a) :
    splitOnChar sep (a ++ sep :: rest) = a :: splitOnChar sep rest := by
  induction a with
  | nil =>
    rw [List.nil_append, splitOnChar]
    cases hs : splitOnChar sep rest with
    | nil => exact absurd hs (splitOnChar_ne_nil sep rest)
    | cons p ps => simp
  | cons c a ih =>
    have hc : c ≠ sep := fun hceq => h (hceq ▸ List.mem_cons_self c a)
    have ha : sep ∉ a := fun hmem => h (List.mem_cons_of_mem c hmem)
    rw [List.cons_append, splitOnChar]
    rw [ih ha]
    simp [hc]

/-- Universal-newlines translation is the identity on content without a
carriage return. -/
theorem univNewlines_of_no_cr : ∀ l : List Char, crChar ∉ l → univNewlines l = l
  | [], _ => rfl
  | c :: [], h => by
    have hc : c ≠ crChar := fun he => h (by simp [he])
    simp [univNewlines, hc]
  | c :: d :: rest, h => by
    have hc : c ≠ crChar := fun he => h (by simp [he])
    have hd : crChar ∉ d :: rest := fun hm => h (List.mem_cons_of_mem c hm)
    rw [univNewlines, if_neg hc, univNewlines_of_no_cr (d :: rest) hd]

/-- An `ids` artifact written for carriage-return-free ids contains no
carriage return. -/
theorem crChar_not_mem_idsContent (recs : List Record)
    (h : ∀ r ∈ recs, crChar ∉ r.id) : crChar ∉ idsContent recs := by
  intro hmem
  rw [idsContent] at hmem
  obtain ⟨l, hl, hc⟩ := List.mem_flatten.mp hmem
  obtain ⟨r, hr, rfl⟩ := List.mem_map.mp hl
  rcases List.mem_append.mp hc with h1 | h1
  · exact h r hr h1
  · rw [List.mem_singleton] at h1
    exact absurd h1 (by decide)

/-- Splitting the `ids` artifact content at newlines gives the ids plus a
final empty chunk. -/
theorem splitOnChar_idsContent (recs : List Record)
    (h : ∀ r ∈ recs, nlChar ∉ r.id) :
    splitOnChar nlChar (idsContent recs) = recs.map Record.id ++ [[]] := by
  induction recs with
  | nil => simp [idsContent, splitOnChar]
  | cons r recs ih =>
    have hr := h r (List.mem_cons_self r recs)
    have ihr := ih (fun x hx => h x (List.mem_cons_of_mem r hx))
    have hcontent : idsContent (r :: recs) = r.id ++ nlChar :: idsContent recs := by
      simp [idsContent]
    rw [hcontent, splitOnChar_append _ _ _ hr, ihr]
    simp

/-- Reading back the `ids` artifact of a list of good records yields each
record's id, in order. -/
theorem ids_gen_content (recs : List Record)
    (h : ∀ r ∈ recs, GoodRecord r) :
    _ids_gen (idsContent recs) = recs.map Record.id := by
  have hnl : ∀ r ∈ recs, nlChar ∉ r.id := by
    intro r hr
    exact (h r hr).2.2.2.2.2.2.2.2.1
  have hcr : ∀ r ∈ recs, crChar ∉ r.id := by
    intro r hr
    exact (h r hr).2.2.2.2.2.2.2.2.2
  rw [_ids_gen, univNewlines_of_no_cr _ (crChar_not_mem_idsContent recs hcr),
    splitOnChar_idsContent recs hnl]
  rw [List.getLast?_concat, if_pos rfl, List.dropLast_concat, List.map_map]
  apply List.map_congr_left
  intro r hr
  exact (h r hr).2.2.2.2.2.2.2.1

/-- When the producer can fill the quota, the shard loop writes exactly
the next `n` records and leaves the rest unconsumed. -/
theorem write_shard_ok (n : Nat) :
    ∀ (data : List Record) (sf : ShardFiles), n ≤ data.length →
      _write_shard_data n data sf
        = (List.foldl writeRecord sf (data.take n), data.drop n, true) := by
  induction n with
  | zero => intro data sf _; simp [_write_shard_data]
  | succ n ih =>
    intro data sf hlen
    cases data with
    | nil => simp at hlen
    | cons r rest =>
      have : n ≤ rest.length := by simpa using hlen
      rw [_write_shard_data, ih rest (writeRecord sf r) this]
      simp

/-- When the producer runs dry before the quota is met, the shard loop
consumes everything, leaves the partial artifacts on disk and fails. -/
theorem write_shard_exhaust (n : Nat) :
    ∀ (data : List Record) (sf : ShardFiles), data.length < n →
      _write_shard_data n data sf = (List.foldl writeRecord sf data, [], false) := by
  induction n with
  | zero => intro data sf hlen; simp at hlen
  | succ n ih =>
    intro data sf hlen
    cases data with
    | nil => rw [_write_shard_data]; simp
    | cons r rest =>
      have : rest.length < n := by simpa using hlen
      rw [_write_shard_data, ih rest (writeRecord sf r) this]
      simp

/-- The artifact contents accumulated by folding `writeRecord`. -/
theorem foldl_writeRecord (recs : List Record) :
    ∀ sf : ShardFiles,
      List.foldl writeRecord sf recs
        = ⟨sf.ids ++ idsContent recs, sf.vectors ++ vecsContent recs,
            sf.metas ++ metasContent recs⟩ := by
  induction recs with
  | nil => intro sf; simp [idsContent, vecsContent, metasContent]
  | cons r recs ih =>
    intro sf
    rw [List.foldl_cons, ih (writeRecord sf r)]
    simp [writeRecord, idsContent, vecsContent, metasContent]

/-- The three artifact contents of a completed shard. -/
theorem shardFilesOf_eq (recs : List Record) :
    shardFilesOf recs = ⟨idsContent recs, vecsContent recs, metasContent recs⟩ := by
  rw [shardFilesOf, foldl_writeRecord]
  rfl

/-- When the producer covers the whole quota plan, the shard loop
implements the spec's strict sequential partition. -/
theorem writeShards_ok (qs : List Int) :
    ∀ data : List Record, (qs.map Int.toNat).sum ≤ data.length →
      writeShards qs data
        = ((seqPartition (qs.map Int.toNat) data).map shardFilesOf,
            data.drop (qs.map Int.toNat).sum, true) := by
  induction qs with
  | nil => intro data _; simp [writeShards, seqPartition]
  | cons q qs ih =>
    intro data hlen
    simp only [List.map_cons, List.sum_cons] at hlen
    have hq : q.toNat ≤ data.length := by omega
    have hqs : (qs.map Int.toNat).sum ≤ (data.drop q.toNat).length := by
      simp only [List.length_drop]; omega
    rw [writeShards, write_shard_ok q.toNat data emptyShard hq]
    dsimp only
    rw [ih (data.drop q.toNat) hqs]
    simp only [List.map_cons, List.sum_cons, seqPartition, shardFilesOf, List.drop_drop]

/-- When the producer cannot cover the quota plan, the dump consumes
everything and fails. -/
theorem writeShards_exhaust (qs : List Int) :
    ∀ data : List Record, data.length < (qs.map Int.toNat).sum →
      ∃ sfs, writeShards qs data = (sfs, [], false) := by
  induction qs with
  | nil => intro data hlen; simp at hlen
  | cons q qs ih =>
    intro data hlen
    simp only [List.map_cons, List.sum_cons] at hlen
    by_cases hq : q.toNat ≤ data.length
    · have hqs : (data.drop q.toNat).length < (qs.map Int.toNat).sum := by
        simp only [List.length_drop]; omega
      obtain ⟨sfs, hsfs⟩ := ih (data.drop q.toNat) hqs
      refine ⟨shardFilesOf (data.take q.toNat) :: sfs, ?_⟩
      rw [writeShards, write_shard_ok q.toNat data emptyShard hq]
      dsimp only
      rw [hsfs]
      simp [shardFilesOf]
    · push_neg at hq
      refine ⟨[List.foldl writeRecord emptyShard data], ?_⟩
      rw [writeShards, write_shard_exhaust q.toNat data emptyShard hq]

/-- The sequential partition concatenates back to the consumed prefix of
the producer sequence. -/
theorem seqPartition_flatten (ns : List Nat) :
    ∀ data : List Record, (seqPartition ns data).flatten = data.take ns.sum := by
  induction ns with
  | nil => intro data; simp [seqPartition]
  | cons n ns ih =>
    intro data
    rw [seqPartition, List.flatten_cons, ih (data.drop n), List.sum_cons, List.take_add]

/-- Every record of a segment of the partition is a record of the
producer sequence. -/
theorem seqPartition_mem (ns : List Nat) (data : List Record)
    (seg : List Record) (hseg : seg ∈ seqPartition ns data)
    (r : Record) (hr : r ∈ seg) : r ∈ data := by
  have : r ∈ (seqPartition ns data).flatten := List.mem_flatten_of_mem hseg hr
  rw [seqPartition_flatten] at this
  exact List.mem_of_mem_take this

/-- The quota plan spelled out: every shard but the last gets
`size // shards`, the last also absorbs `size % shards`. -/
theorem quotas_eq (size shards : Int) (h2 : 1 ≤ shards) :
    quotas size shards
      = List.replicate (shards.toNat - 1) (Int.fdiv size shards)
        ++ [Int.fdiv size shards + Int.fmod size shards] := by
  obtain ⟨m, hm⟩ : ∃ m, shards.toNat = m + 1 := ⟨shards.toNat - 1, by omega⟩
  have hcast : ((m : Int)) = shards - 1 := by omega
  rw [quotas, hm, List.range_succ, List.map_append]
  have h1 : List.map (shardQuota size shards) [m]
      = [Int.fdiv size shards + Int.fmod size shards] := by
    simp [shardQuota, hcast]
  have h2' : List.map (shardQuota size shards) (List.range m)
      = List.replicate m (Int.fdiv size shards) := by
    apply List.eq_replicate_iff.mpr
    refine ⟨by simp, ?_⟩
    intro b hb
    obtain ⟨i, hi, rfl⟩ := List.mem_map.mp hb
    have him : i < m := List.mem_range.mp hi
    have : (i : Int) ≠ shards - 1 := by omega
    simp [shardQuota, this]
  rw [h1, h2']
  simp

/-- The per-shard `while`-loop iteration counts sum to the declared total
size. -/
theorem quotaNats_sum (size shards : Int) (h0 : 0 ≤ size) (h2 : 1 ≤ shards) :
    ((quotas size shards).map Int.toNat).sum = size.toNat := by
  have hd : 0 ≤ Int.fdiv size shards := Int.fdiv_nonneg h0 (by omega)
  have hm : 0 ≤ Int.fmod size shards := Int.fmod_nonneg h0 (by omega)
  rw [quotas_eq size shards h2, List.map_append, List.map_replicate,
    List.sum_append]
  simp only [List.map_cons, List.map_nil, List.sum_cons, List.sum_nil,
    List.sum_replicate, smul_eq_mul, Nat.add_zero]
  rw [Int.toNat_add hd hm]
  rw [← Int.natCast_inj]
  push_cast
  have expand : (((shards.toNat - 1 : Nat)) : Int) = shards - 1 := by omega
  rw [expand, Int.toNat_of_nonneg hd, Int.toNat_of_nonneg hm,
    Int.toNat_of_nonneg h0]
  linear_combination Int.fdiv_add_fmod size shards

/-- A dump into a fresh or empty root with a sufficient producer: the
shards written are the sequential partition of the first `size` records,
the rest of the producer is never pulled, and no error is raised. -/
theorem handle_dump_ok (data : List Record) (shards size : Int)
    (h2 : 1 ≤ shards) (h0 : 0 ≤ size) (hlen : size.toNat ≤ data.length) :
    _handle_dump false [] data shards size
      = { rootCreated := true
        , written := (seqPartition ((quotas size shards).map Int.toNat) data).map shardFilesOf
        , remaining := data.drop size.toNat
        , error := none } := by
  have hs0 : shards ≠ 0 := by omega
  have hsum : ((quotas size shards).map Int.toNat).sum = size.toNat :=
    quotaNats_sum size shards h0 h2
  rw [_handle_dump]
  simp only [if_neg hs0, List.isEmpty_nil, if_pos rfl, Bool.not_false]
  rw [writeShards_ok (quotas size shards) data (hsum ▸ hlen), hsum]
  simp

/-- A dump into a fresh or empty root with an exhausted producer: every
record is pulled, and the dump fails with `StopIteration`. -/
theorem handle_dump_exhaust (data : List Record) (shards size : Int)
    (h2 : 1 ≤ shards) (h0 : 0 ≤ size) (hlen : data.length < size.toNat) :
    ∃ sfs, _handle_dump false [] data shards size
      = ⟨true, sfs, [], some DumpError.producerExhausted⟩ := by
  have hs0 : shards ≠ 0 := by omega
  have hsum : ((quotas size shards).map Int.toNat).sum = size.toNat :=
    quotaNats_sum size shards h0 h2
  obtain ⟨sfs, hsfs⟩ := writeShards_exhaust (quotas size shards) data (hsum ▸ hlen)
  refine ⟨sfs, ?_⟩
  rw [_handle_dump]
  simp only [if_neg hs0, List.isEmpty_nil, if_pos rfl, Bool.not_false]
  rw [hsfs]
  simp

/-- Reading the final record of a `vectors` artifact whose length prefix
claims at least the remaining `p` bytes (`p.length = n`: a complete final
record; `p.length < n`: a record truncated mid-payload — `read` returns
the short remainder). -/
theorem vecs_gen_last (n : Nat) (p : Bytes) (hn : n < 2 ^ 32)
    (hle : p.length ≤ n) (hne : p ≠ []) :
    _vecs_gen (lenEnc n ++ p)
      = if p.length % 8 = 0 then Except.ok [some p]
        else Except.error ReadError.valueError := by
  have hlen : (lenEnc n).length = 4 := rfl
  have htake : ((lenEnc n ++ p).take 4) = lenEnc n := List.take_left' hlen
  have hdrop : ((lenEnc n ++ p).drop 4) = p := List.drop_left' hlen
  have hcons : ∃ b bs, lenEnc n ++ p = b :: bs := by
    cases h : lenEnc n ++ p with
    | nil => simp [lenEnc] at h
    | cons b bs => exact ⟨b, bs, rfl⟩
  obtain ⟨b, bs, hb⟩ := hcons
  rw [hb] at htake hdrop ⊢
  rw [vecs_gen_cons]
  simp only [htake, hdrop, fromBytesLE_lenEnc n hn]
  have hn0 : n ≠ 0 := by
    have : p.length ≠ 0 := by simpa using hne
    omega
  rw [if_neg hn0]
  have htakep : p.take n = p := List.take_of_length_le hle
  have hdropp : p.drop n = [] := List.drop_eq_nil_of_le hle
  simp only [htakep, hdropp, if_neg hne]
  by_cases h8 : p.length % 8 = 0
  · simp [h8, _vecs_gen]
  · simp [h8]

/-- Reading the final record of a `metas` artifact whose length prefix
claims at least the remaining `p` bytes: the short remainder is yielded
verbatim, with no error. -/
theorem metas_gen_last (n : Nat) (p : Bytes) (hn : n < 2 ^ 32)
    (hle : p.length ≤ n) (hne : p ≠ []) :
    _metas_gen (lenEnc n ++ p) = [some p] := by
  have hlen : (lenEnc n).length = 4 := rfl
  have htake : ((lenEnc n ++ p).take 4) = lenEnc n := List.take_left' hlen
  have hdrop : ((lenEnc n ++ p).drop 4) = p := List.drop_left' hlen
  have hcons : ∃ b bs, lenEnc n ++ p = b :: bs := by
    cases h : lenEnc n ++ p with
    | nil => simp [lenEnc] at h
    | cons b bs => exact ⟨b, bs, rfl⟩
  obtain ⟨b, bs, hb⟩ := hcons
  rw [hb] at htake hdrop ⊢
  rw [metas_gen_cons]
  simp only [htake, hdrop, fromBytesLE_lenEnc n hn]
  have hn0 : n ≠ 0 := by
    have : p.length ≠ 0 := by simpa using hne
    omega
  rw [if_neg hn0]
  have htakep : p.take n = p := List.take_of_length_le hle
  have hdropp : p.drop n = [] := List.drop_eq_nil_of_le hle
  simp only [htakep, hdropp, if_neg hne]
  rw [_metas_gen]

/-! Claim theorems. -/

/-- C3: for every `total_size >= 0` and `shard_count >= 1`, the writer
assigns each shard except the last a quota of exactly
`total_size // shard_count` (so no non-last quota can exceed it), the
last shard gets `total_size // shard_count + total_size % shard_count`,
all quotas are non-negative, and they sum to `total_size` exactly. -/
theorem C3_quota_conservation (size shards : Int) (h0 : 0 ≤ size) (h2 : 1 ≤ shards) :
    (quotas size shards).length = shards.toNat
    ∧ (∀ q ∈ (quotas size shards).dropLast, q = Int.fdiv size shards)
    ∧ (quotas size shards).getLast?
        = some (Int.fdiv size shards + Int.fmod size shards)
    ∧ (∀ q ∈ quotas size shards, 0 ≤ q)
    ∧ (quotas size shards).sum = size
    ∧ (∀ q ∈ (quotas size shards).dropLast, q ≤ Int.fdiv size shards) := by
  have hd : 0 ≤ Int.fdiv size shards := Int.fdiv_nonneg h0 (by omega)
  have hm : 0 ≤ Int.fmod size shards := Int.fmod_nonneg h0 (by omega)
  have heq := quotas_eq size shards h2
  have hdl : (quotas size shards).dropLast
      = List.replicate (shards.toNat - 1) (Int.fdiv size shards) := by
    rw [heq, List.dropLast_concat]
  refine ⟨by simp [quotas], ?_, ?_, ?_, ?_, ?_⟩
  · intro q hq
    rw [hdl] at hq
    exact List.eq_of_mem_replicate hq
  · rw [heq, List.getLast?_concat]
  · intro q hq
    rw [heq] at hq
    rcases List.mem_append.mp hq with h | h
    · rw [List.eq_of_mem_replicate h]; exact hd
    · simp only [List.mem_singleton] at h
      rw [h]; omega
  · rw [heq, List.sum_append, List.sum_replicate, List.sum_cons, List.sum_nil,
      nsmul_eq_mul]
    have expand : (((shards.toNat - 1 : Nat)) : Int) = shards - 1 := by omega
    rw [expand]
    linear_combination Int.fdiv_add_fmod size shards
  · intro q hq
    rw [hdl] at hq
    rw [List.eq_of_mem_replicate hq]

/-- Witness for C3 at `total_size = 5`, `shard_count = 2`: the quotas are
`[2, 3]` and sum to 5. -/
theorem C3_witness :
    quotas 5 2 = [2, 3] ∧ (quotas 5 2).sum = 5 :=
  ⟨by decide, (C3_quota_conservation 5 2 (by decide) (by decide)).2.2.2.2.1⟩

/-- C5: dumping into an existing non-empty root fails with the
non-empty-target error, pulls no record, creates no directory and writes
no file; and when the root is absent it is created and that error is
never raised. -/
theorem C5_nonempty_target (listing : List String) (data : List Record)
    (shards size : Int) (hne : listing ≠ []) :
    export_dump_streaming true listing shards size data
      = ⟨false, [], data, some DumpError.dumpTargetNotEmpty⟩
    ∧ ∀ (data' : List Record) (shards' size' : Int),
        (export_dump_streaming false [] shards' size' data').rootCreated = true
        ∧ (export_dump_streaming false [] shards' size' data').error
            ≠ some DumpError.dumpTargetNotEmpty := by
  constructor
  · rw [export_dump_streaming, _handle_dump]
    have hemp : listing.isEmpty = false := by simpa using hne
    simp [hemp]
  · intro data' shards' size'
    rw [export_dump_streaming, _handle_dump]
    by_cases hs : shards' = 0
    · simp [hs]
    · simp only [if_neg hs, List.isEmpty_nil, if_pos rfl, Bool.not_false]
      rcases h : writeShards (quotas size' shards') data' with ⟨sfs, rem, ok⟩
      dsimp only
      cases ok <;> simp

/-- Witness for C5: a root containing one entry rejects the dump and
nothing is consumed or written. -/
theorem C5_witness :
    export_dump_streaming true ["somefile"] 2 5 [⟨['a'], Vec.absent, none⟩]
      = ⟨false, [], [⟨['a'], Vec.absent, none⟩], some DumpError.dumpTargetNotEmpty⟩ :=
  (C5_nonempty_target ["somefile"] [⟨['a'], Vec.absent, none⟩] 2 5 (by simp)).1

/-- C6: with a fresh root and a valid plan, the dump pulls exactly
`size` records when the producer has at least that many — records beyond
`size` are never pulled — and when the producer holds fewer it is
drained completely and the dump fails with the producer-exhausted error
at the first empty pull. -/
theorem C6_producer_contract (data : List Record) (shards size : Int)
    (h2 : 1 ≤ shards) (h0 : 0 ≤ size) :
    (size.toNat ≤ data.length →
        (export_dump_streaming false [] shards size data).error = none
        ∧ (export_dump_streaming false [] shards size data).remaining
            = data.drop size.toNat)
    ∧ (data.length < size.toNat →
        (export_dump_streaming false [] shards size data).error
            = some DumpError.producerExhausted
        ∧ (export_dump_streaming false [] shards size data).remaining = []) := by
  constructor
  · intro hlen
    rw [export_dump_streaming, handle_dump_ok data shards size h2 h0 hlen]
    exact ⟨rfl, rfl⟩
  · intro hlen
    obtain ⟨sfs, hsfs⟩ := handle_dump_exhaust data shards size h2 h0 hlen
    rw [export_dump_streaming, hsfs]
    exact ⟨rfl, rfl⟩

/-- Witness for C6: a 3-record producer dumped with `size = 2` leaves the
third record unpulled; a 1-record producer dumped with `size = 3` fails
with the producer-exhausted error. -/
theorem C6_witness :
    (export_dump_streaming false [] 2 2
        [⟨['x'], Vec.absent, none⟩, ⟨['y'], Vec.absent, none⟩,
          ⟨['z'], Vec.absent, none⟩]).remaining
      = [⟨['z'], Vec.absent, none⟩]
    ∧ (export_dump_streaming false [] 2 3
        [⟨['x'], Vec.absent, none⟩]).error = some DumpError.producerExhausted := by
  have h1 := C6_producer_contract
    [⟨['x'], Vec.absent, none⟩, ⟨['y'], Vec.absent, none⟩, ⟨['z'], Vec.absent, none⟩]
    2 2 (by decide) (by decide)
  have h2 := C6_producer_contract [⟨['x'], Vec.absent, none⟩] 2 3 (by decide) (by decide)
  refine ⟨?_, (h2.2 (by decide)).1⟩
  rw [(h1.1 (by decide)).2]
  decide

/-- C8 counterexample: with `shard_count = -1 < 1` the dump does not fail
at all — `range(-1)` is empty, so the shard loop never runs, no division
is attempted, and the call completes with no error (and no shard
written). -/
theorem C8_counterexample :
    export_dump_streaming false [] (-1) 5 [⟨['a'], Vec.absent, none⟩]
      = ⟨true, [], [⟨['a'], Vec.absent, none⟩], none⟩ := by
  decide

/-- C8 amended: for `shard_count < 1` no shard data is ever written and
no record pulled; `shard_count = 0` fails with the `ZeroDivisionError`
from `size // shards` (there is no dedicated invalid-shard-count error),
while `shard_count < 0` completes without any error. -/
theorem C8_invalid_shard_count (data : List Record) (size shards : Int)
    (h : shards < 1) :
    (export_dump_streaming false [] shards size data).written = []
    ∧ (export_dump_streaming false [] shards size data).remaining = data
    ∧ (shards = 0 →
        (export_dump_streaming false [] shards size data).error
          = some DumpError.zeroDivisionError)
    ∧ (shards < 0 →
        (export_dump_streaming false [] shards size data).error = none) := by
  have hq : quotas size shards = [] := by
    have h0 : shards.toNat = 0 := by omega
    simp [quotas, h0]
  rw [export_dump_streaming, _handle_dump]
  by_cases hs : shards = 0
  · simp [hs]
  · simp only [if_neg hs, List.isEmpty_nil, if_pos rfl, Bool.not_false, hq]
    rw [writeShards]
    exact ⟨rfl, rfl, fun h0 => absurd h0 hs, fun _ => rfl⟩

/-- Witness for C8 amended, at `shard_count = -1`, `size = 7`. -/
theorem C8_witness :
    (export_dump_streaming false [] (-1) 7 [⟨['b'], Vec.absent, none⟩]).written = []
    ∧ (export_dump_streaming false [] (-1) 7 [⟨['b'], Vec.absent, none⟩]).error = none := by
  have h := C8_invalid_shard_count [⟨['b'], Vec.absent, none⟩] 7 (-1) (by decide)
  exact ⟨h.1, h.2.2.2 (by decide)⟩

/-- C4: the writer realises the strict sequential partition of the
producer's order — shard `i` holds exactly the `i`-th quota's worth of
consecutive records, its three artifacts listing them in pull order —
and the partition concatenates back to the first `size` pulled records. -/
theorem C4_sequential_partition (data : List Record) (shards size : Int)
    (h2 : 1 ≤ shards) (h0 : 0 ≤ size) (hlen : size.toNat ≤ data.length) :
    (export_dump_streaming false [] shards size data).written
      = (seqPartition ((quotas size shards).map Int.toNat) data).map
          (fun seg => ⟨idsContent seg, vecsContent seg, metasContent seg⟩)
    ∧ (seqPartition ((quotas size shards).map Int.toNat) data).flatten
        = data.take size.toNat := by
  constructor
  · rw [export_dump_streaming, handle_dump_ok data shards size h2 h0 hlen]
    dsimp only
    apply List.map_congr_left
    intro seg _
    exact shardFilesOf_eq seg
  · rw [seqPartition_flatten, quotaNats_sum size shards h0 h2]

/-- Witness for C4, the spec's concrete scenario: `total_size = 5`,
`shard_count = 2`, ids `a..e`, five 24-byte `float64` vectors, all
metadata absent.  Shard 0's ids artifact reads `a\nb\n`, shard 1's reads
`c\nd\ne\n`, and shard 1's vectors artifact is exactly three
length-prefixed 24-byte payloads. -/
theorem C4_witness :
    (export_dump_streaming false [] 2 5
        [⟨['a'], Vec.arr (List.replicate 24 0), none⟩,
          ⟨['b'], Vec.arr (List.replicate 24 1), none⟩,
          ⟨['c'], Vec.arr (List.replicate 24 2), none⟩,
          ⟨['d'], Vec.arr (List.replicate 24 3), none⟩,
          ⟨['e'], Vec.arr (List.replicate 24 4), none⟩]).written.map ShardFiles.ids
      = [['a', nlChar, 'b', nlChar], ['c', nlChar, 'd', nlChar, 'e', nlChar]]
    ∧ ((export_dump_streaming false [] 2 5
        [⟨['a'], Vec.arr (List.replicate 24 0), none⟩,
          ⟨['b'], Vec.arr (List.replicate 24 1), none⟩,
          ⟨['c'], Vec.arr (List.replicate 24 2), none⟩,
          ⟨['d'], Vec.arr (List.replicate 24 3), none⟩,
          ⟨['e'], Vec.arr (List.replicate 24 4), none⟩]).written.map
            ShardFiles.vectors).getD 1 []
      = lenEnc 24 ++ List.replicate 24 2 ++ lenEnc 24 ++ List.replicate 24 3
          ++ lenEnc 24 ++ List.replicate 24 4 := by
  have h := C4_sequential_partition
    [⟨['a'], Vec.arr (List.replicate 24 0), none⟩,
      ⟨['b'], Vec.arr (List.replicate 24 1), none⟩,
      ⟨['c'], Vec.arr (List.replicate 24 2), none⟩,
      ⟨['d'], Vec.arr (List.replicate 24 3), none⟩,
      ⟨['e'], Vec.arr (List.replicate 24 4), none⟩] 2 5
    (by decide) (by decide) (by decide)
  rw [h.1]
  constructor <;> decide

/-- C1 counterexample: one record with an absent metadata field does not
round-trip — the dump writes a zero length prefix for it, and reading
the shard's metas artifact back yields the empty sequence instead of a
one-element sequence holding an absent value. -/
theorem C1_counterexample :
    (import_metas_and_vectors (fsOf
        ((export_dump_streaming false [] 1 1
            [⟨['a'], Vec.arr [0, 0, 0, 0, 0, 0, 0, 0], none⟩]).written.getD 0
          emptyShard))).2.1
      = Except.ok []
    ∧ (Except.ok [] : Except ReadError (List (Option Bytes)))
        ≠ Except.ok [(none : Option Bytes)] := by
  have hw : (export_dump_streaming false [] 1 1
        [⟨['a'], Vec.arr [0, 0, 0, 0, 0, 0, 0, 0], none⟩]).written.getD 0 emptyShard
      = ⟨['a', nlChar], lenEnc 8 ++ [0, 0, 0, 0, 0, 0, 0, 0], [0, 0, 0, 0]⟩ := by
    decide
  constructor
  · rw [hw]
    simp [import_metas_and_vectors, fsOf, openMetas, _metas_gen, fromBytesLE]
  · simp

/-- C1 amended: the round trip holds for every producer sequence of
records whose vectors are present non-empty `float64` arrays, whose
metadata is present and non-empty, and whose ids contain no newline and
no carriage return (both split lines under text-mode universal
newlines) and are unchanged by Python `strip()` (full Unicode
whitespace set) — dumping with any `shard_count >= 1` and importing
every shard with `import_metas_and_vectors`, concatenating in shard
order, reproduces exactly the ids, the metadata bytes, and the vectors'
`float64` buffers.  (Absent or empty vectors and metadata are excluded:
their zero length prefix truncates the read-back sequences, as the
counterexample shows.) -/
theorem C1_round_trip (data : List Record) (shards : Int) (h2 : 1 ≤ shards)
    (hg : ∀ r ∈ data, GoodRecord r) :
    ∃ segs : List (List Record),
      segs.flatten = data
      ∧ (export_dump_streaming false [] shards (data.length : Int) data).error = none
      ∧ (export_dump_streaming false [] shards (data.length : Int) data).written.map
          (fun sf => import_metas_and_vectors (fsOf sf))
        = segs.map (fun seg =>
            (Except.ok (seg.map Record.id),
              Except.ok (seg.map Record.meta),
              Except.ok (seg.map (fun r => some (vecBytes r.vec))))) := by
  have h0 : (0 : Int) ≤ (data.length : Int) := by omega
  have htn : ((data.length : Int)).toNat = data.length := Int.toNat_ofNat _
  have hlen : ((data.length : Int)).toNat ≤ data.length := le_of_eq htn
  refine ⟨seqPartition ((quotas (data.length : Int) shards).map Int.toNat) data,
    ?_, ?_, ?_⟩
  · rw [seqPartition_flatten, quotaNats_sum _ _ h0 h2, htn, List.take_length]
  · rw [export_dump_streaming, handle_dump_ok data shards _ h2 h0 hlen]
  · rw [export_dump_streaming, handle_dump_ok data shards _ h2 h0 hlen]
    dsimp only
    rw [List.map_map]
    apply List.map_congr_left
    intro seg hseg
    have hgood : ∀ r ∈ seg, GoodRecord r := fun r hr =>
      hg r (seqPartition_mem _ _ _ hseg r hr)
    show import_metas_and_vectors (fsOf (shardFilesOf seg)) = _
    rw [shardFilesOf_eq]
    simp only [import_metas_and_vectors, fsOf, openIds, openMetas, openVecs]
    rw [ids_gen_content seg hgood, metas_gen_content seg hgood,
      vecs_gen_content seg hgood]

/-- Witness for C1 amended: two good records round-trip through a
1-shard dump. -/
theorem C1_witness :
    ∃ segs : List (List Record),
      segs.flatten = [⟨['a'], Vec.arr (List.replicate 8 1), some [5]⟩,
          ⟨['b'], Vec.arr (List.replicate 16 2), some [6, 7]⟩]
      ∧ (export_dump_streaming false [] 1
          (([⟨['a'], Vec.arr (List.replicate 8 1), some [5]⟩,
              ⟨['b'], Vec.arr (List.replicate 16 2), some [6, 7]⟩] :
            List Record).length : Int)
          [⟨['a'], Vec.arr (List.replicate 8 1), some [5]⟩,
            ⟨['b'], Vec.arr (List.replicate 16 2), some [6, 7]⟩]).error = none
      ∧ (export_dump_streaming false [] 1
          (([⟨['a'], Vec.arr (List.replicate 8 1), some [5]⟩,
              ⟨['b'], Vec.arr (List.replicate 16 2), some [6, 7]⟩] :
            List Record).length : Int)
          [⟨['a'], Vec.arr (List.replicate 8 1), some [5]⟩,
            ⟨['b'], Vec.arr (List.replicate 16 2), some [6, 7]⟩]).written.map
            (fun sf => import_metas_and_vectors (fsOf sf))
        = segs.map (fun seg =>
            (Except.ok (seg.map Record.id),
              Except.ok (seg.map Record.meta),
              Except.ok (seg.map (fun r => some (vecBytes r.vec))))) :=
  C1_round_trip
    [⟨['a'], Vec.arr (List.replicate 8 1), some [5]⟩,
      ⟨['b'], Vec.arr (List.replicate 16 2), some [6, 7]⟩] 1
    (by decide) (by decide)

/-- C2: the readers treat a zero length prefix as end-of-stream — a
vectors artifact holding a zero-length entry followed by a complete
8-byte record decodes to the empty sequence (the absent entry is not
yielded and the following record is never reached), and likewise for
metas. -/
theorem C2_zero_length_terminates :
    _vecs_gen ([0, 0, 0, 0] ++ (lenEnc 8 ++ [1, 2, 3, 4, 5, 6, 7, 8]))
      = Except.ok []
    ∧ _metas_gen ([0, 0, 0, 0] ++ (lenEnc 2 ++ [7, 7])) = [] := by
  constructor <;> simp [_vecs_gen, _metas_gen, fromBytesLE, lenEnc]

/-- C7 counterexample: a metas artifact truncated mid-record — prefix
claims 4 bytes, only 2 remain — does not fail; the reader silently
yields the short 2-byte payload. -/
theorem C7_counterexample :
    _metas_gen (lenEnc 4 ++ [10, 20]) = [some [10, 20]]
    ∧ ([some ([10, 20] : Bytes)] : List (Option Bytes)) ≠ [] := by
  constructor
  · simp [_metas_gen, fromBytesLE, lenEnc]
  · simp

/-- C7 amended: truncation is detected only for the vectors artifact and
only when the remaining byte count is not a multiple of 8 (the
`ValueError` from `np.frombuffer`); a truncated metas record, or a
vectors record truncated to a non-zero multiple of 8 bytes, is silently
yielded as the short payload. -/
theorem C7_truncation (n : Nat) (p : Bytes) (hn : n < 2 ^ 32)
    (htr : p.length < n) (hp : p ≠ []) :
    (p.length % 8 ≠ 0 →
        _vecs_gen (lenEnc n ++ p) = Except.error ReadError.valueError)
    ∧ (p.length % 8 = 0 → _vecs_gen (lenEnc n ++ p) = Except.ok [some p])
    ∧ _metas_gen (lenEnc n ++ p) = [some p] := by
  have hle : p.length ≤ n := le_of_lt htr
  refine ⟨?_, ?_, metas_gen_last n p hn hle hp⟩
  · intro h8
    rw [vecs_gen_last n p hn hle hp, if_neg h8]
  · intro h8
    rw [vecs_gen_last n p hn hle hp, if_pos h8]

/-- Witness for C7 amended: prefix 16 with 2 remaining bytes errors on
the vectors side but silently yields on the metas side; prefix 16 with 8
remaining bytes silently yields a short vector. -/
theorem C7_witness :
    _vecs_gen (lenEnc 16 ++ [1, 2]) = Except.error ReadError.valueError
    ∧ _vecs_gen (lenEnc 16 ++ [1, 2, 3, 4, 5, 6, 7, 8])
        = Except.ok [some [1, 2, 3, 4, 5, 6, 7, 8]]
    ∧ _metas_gen (lenEnc 16 ++ [1, 2]) = [some [1, 2]] := by
  have h1 := C7_truncation 16 [1, 2] (by decide) (by decide) (by decide)
  have h2 := C7_truncation 16 [1, 2, 3, 4, 5, 6, 7, 8]
    (by decide) (by decide) (by decide)
  exact ⟨h1.1 (by decide), h2.2.1 (by decide), h1.2.2⟩

/-- C9 counterexample: with only the metas artifact missing,
`import_vectors` does not fail at all (both its sequences read fine),
and symmetrically `import_metas` does not fail when only the vectors
artifact is missing. -/
theorem C9_counterexample :
    import_vectors ⟨some [], some [], none⟩ = (Except.ok [], Except.ok [])
    ∧ import_metas ⟨some [], none, some []⟩ = (Except.ok [], Except.ok []) := by
  constructor <;>
    simp [import_vectors, import_metas, openIds, openVecs, openMetas,
      _ids_gen, univNewlines, splitOnChar, _vecs_gen, _metas_gen]

/-- C9 amended: each import operation fails with the missing-artifact
error exactly for the artifacts it opens — `import_vectors` for ids or
vectors, `import_metas` for ids or metas, `import_metas_and_vectors` for
any of the three — and is entirely insensitive to an artifact it does
not open. -/
theorem C9_missing_artifacts (s : ShardFS) :
    (s.idsFile = none →
        (import_vectors s).1 = Except.error ReadError.shardNotFound
        ∧ (import_metas s).1 = Except.error ReadError.shardNotFound
        ∧ (import_metas_and_vectors s).1 = Except.error ReadError.shardNotFound)
    ∧ (s.vectorsFile = none →
        (import_vectors s).2 = Except.error ReadError.shardNotFound
        ∧ (import_metas_and_vectors s).2.2 = Except.error ReadError.shardNotFound)
    ∧ (s.metasFile = none →
        (import_metas s).2 = Except.error ReadError.shardNotFound
        ∧ (import_metas_and_vectors s).2.1 = Except.error ReadError.shardNotFound)
    ∧ (∀ m', import_vectors ⟨s.idsFile, s.vectorsFile, m'⟩ = import_vectors s)
    ∧ (∀ v', import_metas ⟨s.idsFile, v', s.metasFile⟩ = import_metas s) := by
  refine ⟨?_, ?_, ?_, ?_, ?_⟩
  · intro h
    simp [import_vectors, import_metas, import_metas_and_vectors, openIds, h]
  · intro h
    simp [import_vectors, import_metas_and_vectors, openVecs, h]
  · intro h
    simp [import_metas, import_metas_and_vectors, openMetas, h]
  · intro m'
    simp [import_vectors, openIds, openVecs]
  · intro v'
    simp [import_metas, openIds, openMetas]

/-- Witness for C9 amended: a missing shard directory (all three
artifacts absent) fails every sequence of every import operation. -/
theorem C9_witness :
    import_metas_and_vectors ⟨none, none, none⟩
      = (Except.error ReadError.shardNotFound,
          Except.error ReadError.shardNotFound,
          Except.error ReadError.shardNotFound) := by
  have h := C9_missing_artifacts ⟨none, none, none⟩
  exact Prod.ext_iff.mpr ⟨(h.1 rfl).2.2,
    Prod.ext_iff.mpr ⟨(h.2.2.1 rfl).2, (h.2.1 rfl).2⟩⟩

/-- C10: a record whose vector field is already a `bytes` object is
length-prefixed and written verbatim — no `float64` cast and no
multiple-of-8 check — so the shard's vectors artifact can hold a payload
that is not reinterpretable as whole `float64` elements (reading it back
raises the buffer-size error). -/
theorem C10_raw_bytes_verbatim (bs : Bytes) (sf : ShardFiles)
    (id : List Char) (meta : Option Bytes) :
    (writeRecord sf ⟨id, Vec.raw bs, meta⟩).vectors
      = sf.vectors ++ lenEnc bs.length ++ bs
    ∧ (bs ≠ [] → bs.length < 2 ^ 32 → bs.length % 8 ≠ 0 →
        _vecs_gen (lenEnc bs.length ++ bs) = Except.error ReadError.valueError) := by
  constructor
  · rfl
  · intro h0 h32 h8
    rw [vecs_gen_last bs.length bs h32 le_rfl h0, if_neg h8]

/-- Witness for C10 at the 3-byte payload `[1, 2, 3]`. -/
theorem C10_witness :
    (writeRecord emptyShard ⟨['a'], Vec.raw [1, 2, 3], none⟩).vectors
      = lenEnc 3 ++ [1, 2, 3]
    ∧ _vecs_gen (lenEnc 3 ++ [1, 2, 3]) = Except.error ReadError.valueError := by
  have h := C10_raw_bytes_verbatim [1, 2, 3] emptyShard ['a'] none
  exact ⟨by rw [h.1]; rfl, h.2 (by decide) (by decide) (by decide)⟩

end Dump
